import Mathlib

/-!
Verification of the `xstate-form` form-model factory
(`src/packages/xstate-form/src/index.ts`).

JavaScript objects used as string-keyed records (`values`, `errors`,
`touched`, the `on` map of a state-node configuration) are embedded as
association lists `List (String × α)` with the object-spread update
semantics: `{...m, [k]: v}` replaces the value at `k` in place when the
key is present (preserving key order) and appends the entry otherwise.
A real JS object has no duplicate keys; lemmas that need this take a
`Nodup` hypothesis on the key list.
-/

namespace XStateForm

/-- A JavaScript object with string keys and values of type `α`. -/
abbrev Jmap (α : Type) : Type := List (String × α)

variable {α β : Type}

/-- Property read `m[k]`: the value at the first entry whose key is `k`. -/
def lookupJ : Jmap α → String → Option α
  | [], _ => none
  | (k1, v) :: rest, k => if k1 = k then some v else lookupJ rest k

/-- Whether the object has a property named `k` (`k in m`). -/
def hasKey (m : Jmap α) (k : String) : Bool :=
  (lookupJ m k).isSome

/-- Object-spread update `{...m, [k]: v}`: replace in place when the key
exists, append otherwise. -/
def setKey (m : Jmap α) (k : String) (v : α) : Jmap α :=
  if hasKey m k then
    m.map (fun p => if p.1 = k then (k, v) else p)
  else
    m ++ [(k, v)]

/-- `Object.keys(m)`. -/
def keysOf (m : Jmap α) : List String :=
  m.map Prod.fst

/-- `Object.values(m)`. -/
def valuesOf (m : Jmap α) : List α :=
  m.map Prod.snd

/-- `ErrorsFromValues`: a mapping from field name to an optional error
string.  An entry may be present with no string (`{f: undefined}` in JS),
which is why the value type is `Option String`. -/
abbrev ErrorsMap : Type := Jmap (Option String)

/-- `ValidateFunction<Values>`: `(value: Values) => ErrorsFromValues | void`.
The `Option` result models the `void` (undefined) return. -/
abbrev ValidateFunction (V : Type) : Type := Jmap V → Option ErrorsMap

/-- `FormModelParams<Values>`: `initialValues` plus the optional `validate`. -/
structure FormModelParams (V : Type) where
  initialValues : Jmap V
  validate : Option (ValidateFunction V)

/-- `InitialState<Values>` (the spec's `FormState`): the per-model slice
held under the namespaced key of the host context. -/
structure InitialState (V : Type) where
  errors : ErrorsMap
  touched : Jmap Bool
  values : Jmap V

/-- `FormContext<Key, Values>`: the host context.  `form` is the slice at
the namespaced key; `rest` stands for the sibling properties of the host
context, which the form model never touches. -/
structure FormContext (V ρ : Type) where
  form : InitialState V
  rest : ρ

/-- The expression `config.validate?.(vs) || {}`: optional-chain the
validator and coerce an `undefined` result to the empty mapping. -/
def computeErrors {V : Type} (validate : Option (ValidateFunction V))
    (vs : Jmap V) : ErrorsMap :=
  (validate.bind (fun f => f vs)).getD []

/-- `toInitialBooleanMap`: `Object.keys(values).forEach(key => map[key] = false)`
starting from the empty object. -/
def toInitialBooleanMap {V : Type} (values : Jmap V) : Jmap Bool :=
  (keysOf values).foldl (fun m key => setKey m key false) []

/-- `makeInitialStateFromConfig`: `values` is the caller's reference,
`errors = config.validate?.(config.initialValues) || {}`, `touched` maps
every key to `false`. -/
def makeInitialStateFromConfig {V : Type} (config : FormModelParams V) :
    InitialState V :=
  { values := config.initialValues
    errors := computeErrors config.validate config.initialValues
    touched := toInitialBooleanMap config.initialValues }

/-- `assignChangeToState`: `newValues = {...values, [event.name]: event.value}`;
the slice becomes `{...previous, values: newValues, errors: validate?.(newValues) || {}}`;
sibling host-context properties are preserved by the runtime merge. -/
def assignChangeToState {V ρ : Type} (config : FormModelParams V)
    (context : FormContext V ρ) (name : String) (value : V) :
    FormContext V ρ :=
  let newValues := setKey context.form.values name value
  { context with
    form := { context.form with
      values := newValues
      errors := computeErrors config.validate newValues } }

/-- `assignBlurToState`: the source duplicates the body of
`assignChangeToState` verbatim. -/
def assignBlurToState {V ρ : Type} (config : FormModelParams V)
    (context : FormContext V ρ) (name : String) (value : V) :
    FormContext V ρ :=
  let newValues := setKey context.form.values name value
  { context with
    form := { context.form with
      values := newValues
      errors := computeErrors config.validate newValues } }

/-- `assignFocusToState`: the slice becomes
`{...previous, touched: {...touched, [event.name]: true}}`. -/
def assignFocusToState {V ρ : Type} (context : FormContext V ρ)
    (name : String) : FormContext V ρ :=
  { context with
    form := { context.form with
      touched := setKey context.form.touched name true } }

/-- `getIsValid`: `Object.keys(context[key].errors).length === 0`. -/
def getIsValid {V ρ : Type} (context : FormContext V ρ) : Bool :=
  (keysOf context.form.errors).length == 0

/-- `getIsDirty`: `Object.values(context[key].touched).some(Boolean)`. -/
def getIsDirty {V ρ : Type} (context : FormContext V ρ) : Bool :=
  (valuesOf context.form.touched).any (fun b => b)

/-- `getIsPristine`: `(context) => !getIsDirty(context)`. -/
def getIsPristine {V ρ : Type} (context : FormContext V ρ) : Bool :=
  !(getIsDirty context)

/-- The three form events that have default behaviors (`SUBMIT` has none
and no claim mentions it).  These are the payloads produced by the
model's event constructors `events.change`, `events.blur`, `events.focus`. -/
inductive FormEvent (V : Type) where
  | change (name : String) (value : V)
  | blur (name : String) (value : V)
  | focus (name : String)
deriving DecidableEq

/-- The `type` string of the event record built by the constructors:
`` `${key}.CHANGE` `` and so on. -/
def evType {V : Type} (key : String) : FormEvent V → String
  | .change _ _ => key ++ ".CHANGE"
  | .blur _ _ => key ++ ".BLUR"
  | .focus _ => key ++ ".FOCUS"

/-- `event.name`, present on all three events. -/
def evName {V : Type} : FormEvent V → String
  | .change n _ => n
  | .blur n _ => n
  | .focus n => n

/-- One transition of the host machine: the matching default behavior
applied to the context, exactly as the `on` map of `createState` wires
CHANGE/BLUR/FOCUS to the three assign actions. -/
def step {V ρ : Type} (config : FormModelParams V)
    (context : FormContext V ρ) : FormEvent V → FormContext V ρ
  | .change n v => assignChangeToState config context n v
  | .blur n v => assignBlurToState config context n v
  | .focus n => assignFocusToState context n

/-- Serialized dispatch of a list of events from a starting context. -/
def run {V ρ : Type} (config : FormModelParams V)
    (context : FormContext V ρ) (events : List (FormEvent V)) :
    FormContext V ρ :=
  events.foldl (step config) context

/-- The initial host context: the initial slice under the key, plus the
host's sibling data. -/
def initCtx {V ρ : Type} (config : FormModelParams V) (r : ρ) :
    FormContext V ρ :=
  { form := makeInitialStateFromConfig config, rest := r }

/-- A transition entry of a state-node configuration:
`{ actions: [...] }`, each action a `(context, event) => context`
function as the xstate runtime applies it. -/
structure TransitionDef (V ρ : Type) where
  actions : List (FormContext V ρ → FormEvent V → FormContext V ρ)

/-- `StateNodeConfig`: the `on` event-handler map plus the remaining
configuration fields (`rest`), which `createState` spreads through
unchanged. -/
structure SNConfig (V ρ σ : Type) where
  onMap : Jmap (TransitionDef V ρ)
  rest : σ

/-- The default CHANGE transition action: the untyped source action reads
`event.name` and `event.value`.  A `focus` event carries no value; the
runtime routes only `<key>.CHANGE`-typed events here, so that branch is
never reached through `dispatch`. -/
def changeAction {V ρ : Type} (config : FormModelParams V) :
    FormContext V ρ → FormEvent V → FormContext V ρ :=
  fun context ev => match ev with
  | .change n v => assignChangeToState config context n v
  | .blur n v => assignChangeToState config context n v
  | .focus _ => context

/-- The default BLUR transition action, wrapping `assignBlurToState`. -/
def blurAction {V ρ : Type} (config : FormModelParams V) :
    FormContext V ρ → FormEvent V → FormContext V ρ :=
  fun context ev => match ev with
  | .change n v => assignBlurToState config context n v
  | .blur n v => assignBlurToState config context n v
  | .focus _ => context

/-- The default FOCUS transition action, reading only `event.name`. -/
def focusAction {V ρ : Type} :
    FormContext V ρ → FormEvent V → FormContext V ρ :=
  fun context ev => assignFocusToState context (evName ev)

/-- `createState`: `{...config, on: { [CHANGE]: ..., [BLUR]: ..., [FOCUS]: ...,
...config.onMap }}` — the object literal starts with the three defaults and
then spreads the caller's `on` entries, so caller entries win on
collision. -/
def createState {V ρ σ : Type} (key : String) (P : FormModelParams V)
    (config : SNConfig V ρ σ) : SNConfig V ρ σ :=
  { config with
    onMap := config.onMap.foldl (fun m p => setKey m p.1 p.2)
      [ (key ++ ".CHANGE", ⟨[changeAction P]⟩),
        (key ++ ".BLUR", ⟨[blurAction P]⟩),
        (key ++ ".FOCUS", ⟨[focusAction]⟩) ] }

/-- Apply a transition entry: run its action list in order on the context
with the incoming event. -/
def applyTransition {V ρ : Type} (t : TransitionDef V ρ)
    (context : FormContext V ρ) (ev : FormEvent V) : FormContext V ρ :=
  t.actions.foldl (fun c a => a c ev) context

/-- Host-runtime dispatch: exact string match of the event's `type` tag
against the `on` map; no matching handler means the context is unchanged. -/
def dispatch {V ρ σ : Type} (key : String) (cfg : SNConfig V ρ σ)
    (ev : FormEvent V) (context : FormContext V ρ) : FormContext V ρ :=
  match lookupJ cfg.onMap (evType key ev) with
  | some t => applyTransition t context ev
  | none => context

/-! ### Concrete fixtures used to evaluate the theorems on real inputs -/

/-- A validator that always reports the same error mapping. -/
def constErrs : ErrorsMap := [("a", some "bad")]

/-- Validator returning `constErrs` for every input. -/
def constValidate : ValidateFunction Nat := fun _ => some constErrs

/-- Params with a two-field form and the constant validator. -/
def paramsConst : FormModelParams Nat := ⟨[("a", 1), ("b", 2)], some constValidate⟩

/-- Params with no validator. -/
def paramsNoValidate : FormModelParams Nat :=
  ⟨[("username", 1), ("password", 2)], none⟩

/-- A validator that returns `void` (no mapping) on every input. -/
def voidValidate : ValidateFunction Nat := fun _ => none

/-- Params whose validator always returns `void`. -/
def paramsVoid : FormModelParams Nat := ⟨[("a", 0)], some voidValidate⟩

/-- The initial host context for `paramsConst`. -/
def ctx0 : FormContext Nat Unit := initCtx paramsConst ()

/-- The initial host context for `paramsVoid`. -/
def ctxV : FormContext Nat Unit := initCtx paramsVoid ()

/-- A context whose `errors` object has one entry mapped to nothing
(`\x7busername: undefined\x7d` in JS). -/
def ctxC7 : FormContext Nat Unit :=
  ⟨⟨[("username", none)], [("username", false)], [("username", 0)]⟩, ()⟩

/-- A caller transition that runs only the caller's own action, which
leaves the context unchanged. -/
def overrideTransition : TransitionDef Nat Unit := ⟨[fun c _ => c]⟩

/-- A caller state-node configuration that overrides the
`loginForm.CHANGE` handler. -/
def cfgW : SNConfig Nat Unit Unit :=
  ⟨[("loginForm.CHANGE", overrideTransition)], ()⟩

/-- A concrete change event for the override scenario. -/
def evW : FormEvent Nat := .change "username" 3

/-- A concrete event sequence over declared field names. -/
def evsW : List (FormEvent Nat) := [.change "a" 5, .focus "a", .blur "b" 7]

/-! ### Lemmas about the JavaScript-object embedding -/

lemma lookupJ_cons (k1 : String) (v : α) (rest : Jmap α) (k : String) :
    lookupJ ((k1, v) :: rest) k = if k1 = k then some v else lookupJ rest k :=
  rfl

lemma lookupJ_append (m l : Jmap α) (k : String) :
    lookupJ (m ++ l) k = (lookupJ m k).or (lookupJ l k) := by
  induction m with
  | nil => simp [lookupJ]
  | cons p rest ih =>
    obtain ⟨k1, v1⟩ := p
    by_cases hp : k1 = k <;> simp [lookupJ, hp, ih]

lemma lookupJ_replace_self (m : Jmap α) (k : String) (v : α)
    (h : (lookupJ m k).isSome) :
    lookupJ (m.map (fun p => if p.1 = k then (k, v) else p)) k = some v := by
  induction m with
  | nil => simp [lookupJ] at h
  | cons p rest ih =>
    obtain ⟨k1, v1⟩ := p
    rw [List.map_cons]
    by_cases hp : k1 = k
    · subst hp
      rw [if_pos rfl, lookupJ_cons, if_pos rfl]
    · rw [if_neg hp, lookupJ_cons, if_neg hp]
      rw [lookupJ_cons, if_neg hp] at h
      exact ih h

lemma lookupJ_replace_ne (m : Jmap α) (k : String) (v : α) (k2 : String)
    (h : k2 ≠ k) :
    lookupJ (m.map (fun p => if p.1 = k then (k, v) else p)) k2 =
      lookupJ m k2 := by
  induction m with
  | nil => rfl
  | cons p rest ih =>
    obtain ⟨k1, v1⟩ := p
    rw [List.map_cons]
    by_cases hp : k1 = k
    · subst hp
      rw [if_pos rfl, lookupJ_cons, lookupJ_cons,
        if_neg (fun he => h he.symm), if_neg (fun he => h he.symm)]
      exact ih
    · rw [if_neg hp, lookupJ_cons, lookupJ_cons]
      by_cases hk : k1 = k2
      · rw [if_pos hk, if_pos hk]
      · rw [if_neg hk, if_neg hk]
        exact ih

lemma setKey_of_not_has (m : Jmap α) (k : String) (v : α)
    (h : lookupJ m k = none) : setKey m k v = m ++ [(k, v)] := by
  unfold setKey hasKey
  rw [h]
  rfl

lemma lookupJ_setKey_self (m : Jmap α) (k : String) (v : α) :
    lookupJ (setKey m k v) k = some v := by
  unfold setKey
  by_cases h : hasKey m k
  · rw [if_pos h]
    exact lookupJ_replace_self m k v h
  · rw [if_neg h]
    unfold hasKey at h
    rw [Option.not_isSome_iff_eq_none] at h
    simp [lookupJ_append, h, lookupJ]

lemma lookupJ_setKey_ne (m : Jmap α) (k : String) (v : α) (k2 : String)
    (h : k2 ≠ k) : lookupJ (setKey m k v) k2 = lookupJ m k2 := by
  unfold setKey
  by_cases hh : hasKey m k
  · rw [if_pos hh]
    exact lookupJ_replace_ne m k v k2 h
  · rw [if_neg hh]
    simp [lookupJ_append, lookupJ, Ne.symm h]

lemma mem_keysOf_iff (m : Jmap α) (k : String) :
    k ∈ keysOf m ↔ (lookupJ m k).isSome := by
  induction m with
  | nil => simp [keysOf, lookupJ]
  | cons p rest ih =>
    obtain ⟨k1, v1⟩ := p
    by_cases hp : k1 = k
    · subst hp
      simp [keysOf, lookupJ]
    · simp [keysOf, lookupJ, hp, Ne.symm hp] at ih ⊢
      exact ih

lemma keysOf_setKey_of_mem (m : Jmap α) (k : String) (v : α)
    (h : (lookupJ m k).isSome) : keysOf (setKey m k v) = keysOf m := by
  unfold setKey hasKey
  rw [if_pos h]
  unfold keysOf
  rw [List.map_map]
  refine List.map_congr_left ?_
  intro p _
  by_cases hp : p.1 = k
  · simp [hp]
  · simp [hp]

lemma entry_mem_of_lookupJ (m : Jmap α) (k : String) (v : α)
    (h : lookupJ m k = some v) : (k, v) ∈ m := by
  induction m with
  | nil => simp [lookupJ] at h
  | cons p rest ih =>
    obtain ⟨k1, v1⟩ := p
    by_cases hp : k1 = k
    · subst hp
      simp [lookupJ] at h
      simp [h]
    · simp [lookupJ, hp] at h
      exact List.mem_cons_of_mem _ (ih h)

lemma entry_mem_setKey_self (m : Jmap α) (k : String) (v : α) :
    (k, v) ∈ setKey m k v :=
  entry_mem_of_lookupJ _ k v (lookupJ_setKey_self m k v)

/-! Lemmas about the fold that builds the initial `touched` map. -/

lemma lookupJ_foldlFalse_not_mem (ks : List String) (acc : Jmap Bool)
    (k : String) (h : k ∉ ks) :
    lookupJ (ks.foldl (fun m key => setKey m key false) acc) k =
      lookupJ acc k := by
  induction ks generalizing acc with
  | nil => rfl
  | cons k0 t ih =>
    simp only [List.mem_cons, not_or] at h
    rw [List.foldl_cons, ih _ h.2, lookupJ_setKey_ne _ _ _ _ h.1]

lemma lookupJ_foldlFalse_mem (ks : List String) (acc : Jmap Bool)
    (k : String) (h : k ∈ ks) :
    lookupJ (ks.foldl (fun m key => setKey m key false) acc) k =
      some false := by
  induction ks generalizing acc with
  | nil => simp at h
  | cons k0 t ih =>
    rw [List.foldl_cons]
    by_cases ht : k ∈ t
    · exact ih _ ht
    · have hk : k = k0 := by
        rcases List.mem_cons.mp h with h1 | h2
        · exact h1
        · exact absurd h2 ht
      subst hk
      rw [lookupJ_foldlFalse_not_mem _ _ _ ht, lookupJ_setKey_self]

lemma lookupJ_toInitialBooleanMap {V : Type} (vs : Jmap V) (k : String) :
    lookupJ (toInitialBooleanMap vs) k = some false ↔ k ∈ keysOf vs := by
  constructor
  · intro h
    by_contra hmem
    rw [toInitialBooleanMap, lookupJ_foldlFalse_not_mem _ _ _ hmem] at h
    simp [lookupJ] at h
  · intro h
    exact lookupJ_foldlFalse_mem _ _ _ h

lemma foldlFalse_fresh (ks : List String) (acc : Jmap Bool)
    (hnd : ks.Nodup) (hfresh : ∀ k ∈ ks, lookupJ acc k = none) :
    ks.foldl (fun m key => setKey m key false) acc =
      acc ++ ks.map (fun k => (k, false)) := by
  induction ks generalizing acc with
  | nil => simp
  | cons k0 t ih =>
    rw [List.foldl_cons,
      setKey_of_not_has _ _ _ (hfresh k0 (List.mem_cons_self k0 t))]
    rw [List.nodup_cons] at hnd
    rw [ih _ hnd.2]
    · simp
    · intro k hk
      rw [lookupJ_append, hfresh k (List.mem_cons_of_mem _ hk)]
      have hne : k0 ≠ k := fun he => hnd.1 (he ▸ hk)
      simp [lookupJ, hne]

lemma keysOf_toInitialBooleanMap {V : Type} (vs : Jmap V)
    (hnd : (keysOf vs).Nodup) :
    keysOf (toInitialBooleanMap vs) = keysOf vs := by
  rw [toInitialBooleanMap, foldlFalse_fresh (keysOf vs) [] hnd (fun _ _ => rfl)]
  simp [keysOf]

/-! Lemmas about the fold that spreads the caller's `on` entries over the
default handlers in `createState`. -/

lemma lookupJ_foldlSet_not_mem (l : Jmap β) (b : Jmap β) (k : String)
    (h : k ∉ keysOf l) :
    lookupJ (l.foldl (fun m p => setKey m p.1 p.2) b) k = lookupJ b k := by
  induction l generalizing b with
  | nil => rfl
  | cons p t ih =>
    simp only [keysOf, List.map_cons, List.mem_cons, not_or] at h
    rw [List.foldl_cons, ih _ (by simpa [keysOf] using h.2),
      lookupJ_setKey_ne b p.1 p.2 k h.1]

lemma lookupJ_foldlSet_of_lookup (l : Jmap β) (b : Jmap β) (k : String)
    (hv : β) (hnd : (keysOf l).Nodup) (hl : lookupJ l k = some hv) :
    lookupJ (l.foldl (fun m p => setKey m p.1 p.2) b) k = some hv := by
  induction l generalizing b with
  | nil => simp [lookupJ] at hl
  | cons p t ih =>
    obtain ⟨k1, v1⟩ := p
    simp only [keysOf, List.map_cons, List.nodup_cons] at hnd
    rw [List.foldl_cons]
    by_cases hp : k1 = k
    · subst hp
      simp only [lookupJ_cons, if_pos rfl] at hl
      obtain rfl : v1 = hv := Option.some.inj hl
      rw [lookupJ_foldlSet_not_mem _ _ _ (by simpa [keysOf] using hnd.1),
        lookupJ_setKey_self]
    · simp only [lookupJ_cons, if_neg hp] at hl
      exact ih _ (by simpa [keysOf] using hnd.2) hl

lemma string_append_ne (key : String) {a b : String} (h : a ≠ b) :
    key ++ a ≠ key ++ b := by
  intro he
  apply h
  have hd := congrArg String.data he
  rw [String.data_append, String.data_append] at hd
  have hab := List.append_cancel_left hd
  cases a
  cases b
  exact congrArg String.mk hab

lemma run_cons {V ρ : Type} (P : FormModelParams V) (c : FormContext V ρ)
    (e : FormEvent V) (t : List (FormEvent V)) :
    run P c (e :: t) = run P (step P c e) t :=
  rfl

/-! ### The claims -/

/-- C1: applying the CHANGE (or BLUR) behavior with field `f` and value
`v` yields a slice whose `values` maps `f` to `v` and every other field
to its previous value, whose `errors` equals the validator's result on
the new values when a validator was supplied (and the empty mapping when
none was), and whose `touched` is unchanged; BLUR behaves identically. -/
theorem claim_C1_change_blur_update {V ρ : Type} (P : FormModelParams V)
    (context : FormContext V ρ) (f : String) (v : V) :
    (lookupJ (assignChangeToState P context f v).form.values f = some v
      ∧ (∀ g, g ≠ f →
          lookupJ (assignChangeToState P context f v).form.values g =
            lookupJ context.form.values g)
      ∧ (P.validate = none →
          (assignChangeToState P context f v).form.errors = [])
      ∧ (∀ vf errs, P.validate = some vf →
          vf (assignChangeToState P context f v).form.values = some errs →
          (assignChangeToState P context f v).form.errors = errs)
      ∧ (assignChangeToState P context f v).form.touched =
          context.form.touched)
    ∧ assignBlurToState P context f v = assignChangeToState P context f v := by
  refine ⟨⟨?_, ?_, ?_, ?_, rfl⟩, rfl⟩
  · exact lookupJ_setKey_self _ f v
  · intro g hg
    exact lookupJ_setKey_ne _ f v g hg
  · intro h
    show computeErrors P.validate (setKey context.form.values f v) = []
    rw [computeErrors, h]
    rfl
  · intro vf errs h1 h2
    have hv : (assignChangeToState P context f v).form.values =
        setKey context.form.values f v := rfl
    rw [hv] at h2
    show computeErrors P.validate (setKey context.form.values f v) = errs
    rw [computeErrors, h1, Option.some_bind, h2]
    rfl

/-- C1 witness: evaluating the CHANGE behavior at a concrete input. -/
theorem claim_C1_witness :
    lookupJ (assignChangeToState paramsConst ctx0 "b" 5).form.values "b" =
      some 5
    ∧ lookupJ (assignChangeToState paramsConst ctx0 "b" 5).form.values "a" =
        lookupJ ctx0.form.values "a"
    ∧ (assignChangeToState paramsConst ctx0 "b" 5).form.errors = constErrs
    ∧ (assignChangeToState paramsConst ctx0 "b" 5).form.touched =
        ctx0.form.touched :=
  ⟨(claim_C1_change_blur_update paramsConst ctx0 "b" 5).1.1,
   (claim_C1_change_blur_update paramsConst ctx0 "b" 5).1.2.1 "a" (by decide),
   (claim_C1_change_blur_update paramsConst ctx0 "b" 5).1.2.2.2.1
     constValidate constErrs rfl rfl,
   (claim_C1_change_blur_update paramsConst ctx0 "b" 5).1.2.2.2.2⟩

/-- C2: `makeInitialStateFromConfig` returns the caller's `initialValues`
reference as `values`, `errors` from the validator (empty when absent),
and `touched` mapping exactly the keys of `initialValues` to `false`. -/
theorem claim_C2_initial_state {V : Type} (P : FormModelParams V) :
    (makeInitialStateFromConfig P).values = P.initialValues
    ∧ (P.validate = none → (makeInitialStateFromConfig P).errors = [])
    ∧ (∀ vf errs, P.validate = some vf → vf P.initialValues = some errs →
        (makeInitialStateFromConfig P).errors = errs)
    ∧ (∀ k, lookupJ (makeInitialStateFromConfig P).touched k = some false ↔
        k ∈ keysOf P.initialValues) := by
  refine ⟨rfl, ?_, ?_, ?_⟩
  · intro h
    show computeErrors P.validate P.initialValues = []
    rw [computeErrors, h]
    rfl
  · intro vf errs h1 h2
    show computeErrors P.validate P.initialValues = errs
    rw [computeErrors, h1, Option.some_bind, h2]
    rfl
  · intro k
    exact lookupJ_toInitialBooleanMap P.initialValues k

/-- C2 witness: the initial state at concrete params, with and without a
validator. -/
theorem claim_C2_witness :
    (makeInitialStateFromConfig paramsConst).values = paramsConst.initialValues
    ∧ (makeInitialStateFromConfig paramsConst).errors = constErrs
    ∧ lookupJ (makeInitialStateFromConfig paramsConst).touched "a" = some false
    ∧ (makeInitialStateFromConfig paramsNoValidate).errors = [] :=
  ⟨(claim_C2_initial_state paramsConst).1,
   (claim_C2_initial_state paramsConst).2.2.1 constValidate constErrs rfl rfl,
   ((claim_C2_initial_state paramsConst).2.2.2 "a").mpr (by decide),
   (claim_C2_initial_state paramsNoValidate).2.1 rfl⟩

/-- C3: the FOCUS behavior sets `touched[f]` to `true`, keeps every other
touched entry, leaves `values` and `errors` unchanged, and afterwards
`getIsDirty` is true and `getIsPristine` is false. -/
theorem claim_C3_focus {V ρ : Type} (context : FormContext V ρ)
    (f : String) :
    lookupJ (assignFocusToState context f).form.touched f = some true
    ∧ (∀ g, g ≠ f →
        lookupJ (assignFocusToState context f).form.touched g =
          lookupJ context.form.touched g)
    ∧ (assignFocusToState context f).form.values = context.form.values
    ∧ (assignFocusToState context f).form.errors = context.form.errors
    ∧ getIsDirty (assignFocusToState context f) = true
    ∧ getIsPristine (assignFocusToState context f) = false := by
  have hd : getIsDirty (assignFocusToState context f) = true := by
    unfold getIsDirty valuesOf
    rw [List.any_eq_true]
    exact ⟨true,
      List.mem_map.mpr ⟨(f, true), entry_mem_setKey_self _ f true, rfl⟩, rfl⟩
  refine ⟨lookupJ_setKey_self _ f true,
    fun g hg => lookupJ_setKey_ne _ f true g hg, rfl, rfl, hd, ?_⟩
  unfold getIsPristine
  rw [hd]
  rfl

/-- C3 witness: a concrete FOCUS on field `a`. -/
theorem claim_C3_witness :
    lookupJ (assignFocusToState ctx0 "a").form.touched "a" = some true
    ∧ lookupJ (assignFocusToState ctx0 "a").form.touched "b" =
        lookupJ ctx0.form.touched "b"
    ∧ getIsDirty (assignFocusToState ctx0 "a") = true
    ∧ getIsPristine (assignFocusToState ctx0 "a") = false :=
  ⟨(claim_C3_focus ctx0 "a").1,
   (claim_C3_focus ctx0 "a").2.1 "b" (by decide),
   (claim_C3_focus ctx0 "a").2.2.2.2.1,
   (claim_C3_focus ctx0 "a").2.2.2.2.2⟩

/-- C4: `getIsValid` is true iff the errors mapping has zero entries,
`getIsDirty` is true iff at least one touched entry is `true`, and
`getIsPristine` is the boolean negation of `getIsDirty`. -/
theorem claim_C4_selectors {V ρ : Type} (context : FormContext V ρ) :
    (getIsValid context = true ↔ context.form.errors = [])
    ∧ (getIsDirty context = true ↔ ∃ p ∈ context.form.touched, p.2 = true)
    ∧ getIsPristine context = !(getIsDirty context) := by
  refine ⟨?_, ?_, rfl⟩
  · simp [getIsValid, keysOf, List.length_eq_zero]
  · simp [getIsDirty, valuesOf, List.any_eq_true, List.mem_map]

/-- C6: after any sequence of CHANGE/BLUR/FOCUS events from the initial
state, `errors` equals the stored result of the validator on the current
`values` (`validate?.(values) || \x7b\x7d`: the empty mapping when no
validator was supplied or when it returned nothing) — it is never stale
relative to `values`. -/
theorem claim_C6_errors_never_stale {V ρ : Type} (P : FormModelParams V)
    (r : ρ) (events : List (FormEvent V)) :
    (run P (initCtx P r) events).form.errors =
      computeErrors P.validate (run P (initCtx P r) events).form.values := by
  suffices h : ∀ (evs : List (FormEvent V)) (c : FormContext V ρ),
      c.form.errors = computeErrors P.validate c.form.values →
      (run P c evs).form.errors =
        computeErrors P.validate (run P c evs).form.values by
    exact h events _ rfl
  intro evs
  induction evs with
  | nil => intro c hc; exact hc
  | cons e t ih =>
    intro c hc
    rw [run_cons]
    apply ih
    cases e with
    | change n v => rfl
    | blur n v => rfl
    | focus n => exact hc

/-- C7 counterexample: an errors object whose single entry maps to
nothing (`\x7busername: undefined\x7d`) is counted by `getIsValid`, which
therefore returns `false` even though every field is mapped to nothing. -/
theorem claim_C7_counterexample :
    ctxC7.form.errors = [("username", (none : Option String))]
    ∧ getIsValid ctxC7 = false :=
  ⟨rfl, rfl⟩

/-- C7 amended: `getIsValid` returns true iff the errors mapping has zero
entries; an entry that is present but mapped to nothing still counts as
an entry, so such a mapping is not considered valid unless it is empty. -/
theorem claim_C7_amended {V ρ : Type} (context : FormContext V ρ) :
    getIsValid context = true ↔ context.form.errors = [] := by
  simp [getIsValid, keysOf, List.length_eq_zero]

/-- C8: over any event sequence whose field names are declared in
`initialValues`, the `touched` map keeps exactly one entry per initial
field name: no field is added or removed after model creation. -/
theorem claim_C8_touched_domain {V ρ : Type} (P : FormModelParams V)
    (r : ρ) (events : List (FormEvent V))
    (hnd : (keysOf P.initialValues).Nodup)
    (hdecl : ∀ ev ∈ events, evName ev ∈ keysOf P.initialValues) :
    keysOf (run P (initCtx P r) events).form.touched = keysOf P.initialValues
    ∧ (keysOf (run P (initCtx P r) events).form.touched).Nodup := by
  have main : ∀ (evs : List (FormEvent V)) (c : FormContext V ρ),
      keysOf c.form.touched = keysOf P.initialValues →
      (∀ ev ∈ evs, evName ev ∈ keysOf P.initialValues) →
      keysOf (run P c evs).form.touched = keysOf P.initialValues := by
    intro evs
    induction evs with
    | nil => intro c hc _; exact hc
    | cons e t ih =>
      intro c hc hdT
      rw [run_cons]
      apply ih
      · cases e with
        | change n v => exact hc
        | blur n v => exact hc
        | focus n =>
          show keysOf (setKey c.form.touched n true) = keysOf P.initialValues
          rw [keysOf_setKey_of_mem]
          · exact hc
          · apply (mem_keysOf_iff c.form.touched n).mp
            rw [hc]
            exact hdT (FormEvent.focus n) (List.mem_cons_self _ _)
      · intro ev hev
        exact hdT ev (List.mem_cons_of_mem _ hev)
  have hbase : keysOf (initCtx P r).form.touched = keysOf P.initialValues :=
    keysOf_toInitialBooleanMap P.initialValues hnd
  have h := main events _ hbase hdecl
  exact ⟨h, h ▸ hnd⟩

/-- C8 witness: a concrete run of change, focus and blur events over the
declared fields. -/
theorem claim_C8_witness :
    keysOf (run paramsConst (initCtx paramsConst ()) evsW).form.touched =
      keysOf paramsConst.initialValues
    ∧ (keysOf (run paramsConst (initCtx paramsConst ()) evsW).form.touched).Nodup :=
  claim_C8_touched_domain paramsConst () evsW (by decide) (by decide)

/-- C9: the CHANGE and BLUR state-merging behaviors are extensionally
equal: for every prior context, field name and value they produce the
same next context. -/
theorem claim_C9_change_blur_equal {V ρ : Type} (P : FormModelParams V)
    (context : FormContext V ρ) (name : String) (value : V) :
    assignChangeToState P context name value =
      assignBlurToState P context name value :=
  rfl

/-- C10: whenever the supplied validator returns no mapping (`void`),
`makeInitialStateFromConfig` and the CHANGE and BLUR behaviors all store
the empty mapping as `errors`, never a missing object. -/
theorem claim_C10_void_validator {V ρ : Type} (P : FormModelParams V)
    (vf : ValidateFunction V) (context : FormContext V ρ) (n : String)
    (v : V)
    (hP : P.validate = some vf)
    (h1 : vf P.initialValues = none)
    (h2 : vf (setKey context.form.values n v) = none) :
    (makeInitialStateFromConfig P).errors = []
    ∧ (assignChangeToState P context n v).form.errors = []
    ∧ (assignBlurToState P context n v).form.errors = [] := by
  refine ⟨?_, ?_, ?_⟩
  · show computeErrors P.validate P.initialValues = []
    rw [computeErrors, hP, Option.some_bind, h1]
    rfl
  · show computeErrors P.validate (setKey context.form.values n v) = []
    rw [computeErrors, hP, Option.some_bind, h2]
    rfl
  · show computeErrors P.validate (setKey context.form.values n v) = []
    rw [computeErrors, hP, Option.some_bind, h2]
    rfl

/-- C10 witness: a validator that always returns `void`, evaluated at
concrete inputs. -/
theorem claim_C10_witness :
    (makeInitialStateFromConfig paramsVoid).errors = []
    ∧ (assignChangeToState paramsVoid ctxV "a" 3).form.errors = []
    ∧ (assignBlurToState paramsVoid ctxV "a" 3).form.errors = [] :=
  claim_C10_void_validator paramsVoid voidValidate ctxV "a" 3 rfl rfl rfl

/-- C5: `createState` installs handlers for the three namespaced events;
a caller entry for one of those event names entirely replaces the
default; in particular with the caller overriding `<key>.CHANGE`,
dispatching a CHANGE event runs only the caller's transition, and when
the caller's actions leave `values` alone, `values` stay unchanged (the
default assign-to-state behavior does not run). -/
theorem claim_C5_createState {V ρ σ : Type} (key : String)
    (P : FormModelParams V) (config : SNConfig V ρ σ)
    (hnd : (keysOf config.onMap).Nodup) :
    ((lookupJ (createState key P config).onMap (key ++ ".CHANGE")).isSome
      ∧ (lookupJ (createState key P config).onMap (key ++ ".BLUR")).isSome
      ∧ (lookupJ (createState key P config).onMap (key ++ ".FOCUS")).isSome)
    ∧ (∀ e h, lookupJ config.onMap e = some h →
        lookupJ (createState key P config).onMap e = some h)
    ∧ (∀ h, lookupJ config.onMap (key ++ ".CHANGE") = some h →
        ∀ (ev : FormEvent V) (context : FormContext V ρ),
          evType key ev = key ++ ".CHANGE" →
          dispatch key (createState key P config) ev context =
            applyTransition h context ev
          ∧ ((∀ c e2, (applyTransition h c e2).form.values = c.form.values) →
              (dispatch key (createState key P config) ev context).form.values =
                context.form.values)) := by
  have callerWins : ∀ e h, lookupJ config.onMap e = some h →
      lookupJ (createState key P config).onMap e = some h := by
    intro e h hl
    exact lookupJ_foldlSet_of_lookup config.onMap _ e h hnd hl
  have present : ∀ s : String, s ∈ [key ++ ".CHANGE", key ++ ".BLUR",
      key ++ ".FOCUS"] → (lookupJ (createState key P config).onMap s).isSome := by
    intro s hs
    by_cases hmem : s ∈ keysOf config.onMap
    · obtain ⟨h, hl⟩ := Option.isSome_iff_exists.mp
        ((mem_keysOf_iff config.onMap s).mp hmem)
      rw [callerWins s h hl]
      rfl
    · show (lookupJ (config.onMap.foldl (fun m p => setKey m p.1 p.2) _) s).isSome
      rw [lookupJ_foldlSet_not_mem config.onMap _ s hmem]
      have hcb : key ++ ".CHANGE" ≠ key ++ ".BLUR" :=
        string_append_ne key (by decide)
      have hcf : key ++ ".CHANGE" ≠ key ++ ".FOCUS" :=
        string_append_ne key (by decide)
      have hbf : key ++ ".BLUR" ≠ key ++ ".FOCUS" :=
        string_append_ne key (by decide)
      simp only [List.mem_cons, List.not_mem_nil, or_false] at hs
      rcases hs with rfl | rfl | rfl
      · rw [lookupJ_cons, if_pos rfl]
        rfl
      · rw [lookupJ_cons, if_neg hcb, lookupJ_cons, if_pos rfl]
        rfl
      · rw [lookupJ_cons, if_neg hcf, lookupJ_cons, if_neg hbf,
          lookupJ_cons, if_pos rfl]
        rfl
  refine ⟨⟨present _ ?_, present _ ?_, present _ ?_⟩, callerWins, ?_⟩
  · simp
  · simp
  · simp
  intro h hl ev context hty
  have hlook : lookupJ (createState key P config).onMap (evType key ev) =
      some h := by
    rw [hty]
    exact callerWins _ h hl
  have h1 : dispatch key (createState key P config) ev context =
      applyTransition h context ev := by
    unfold dispatch
    rw [hlook]
  refine ⟨h1, fun hpres => ?_⟩
  rw [h1]
  exact hpres context ev

/-- C5 witness: the override scenario at concrete inputs — the caller's
trivial CHANGE transition runs instead of the default and the values are
unchanged. -/
theorem claim_C5_witness :
    dispatch "loginForm" (createState "loginForm" paramsConst cfgW) evW ctx0 =
      applyTransition overrideTransition ctx0 evW
    ∧ (dispatch "loginForm"
        (createState "loginForm" paramsConst cfgW) evW ctx0).form.values =
        ctx0.form.values :=
  ⟨((claim_C5_createState "loginForm" paramsConst cfgW (by decide)).2.2
      overrideTransition rfl evW ctx0 rfl).1,
   ((claim_C5_createState "loginForm" paramsConst cfgW (by decide)).2.2
      overrideTransition rfl evW ctx0 rfl).2 (fun _ _ => rfl)⟩

end XStateForm
